import Mathlib

/-!
Shallow embedding of the thermostore 1D transient heat-conduction engine
(materials/material.py, materials/layer.py, physics/heat_equations.py,
physics/solver.py) over exact rational arithmetic, together with theorems
checking the specification's claims against the embedded code.

Python floats are idealised as rationals; optional numeric properties become
Option fields; raised ValueErrors become Except.error values carrying the
source's message strings.
-/

set_option maxRecDepth 10000

/-- Material (materials/material.py): a named bag of physical properties.
The source's accessors density, specific_heat and thermal_conductivity return
a float or None; they are embedded as Option-valued fields. -/
structure Material where
  name : String
  density : Option ℚ
  specific_heat : Option ℚ
  thermal_conductivity : Option ℚ
deriving DecidableEq

/-- Layer (materials/layer.py): a thickness of one material, with an optional
conductivity override. -/
structure Layer where
  material : Material
  thickness : ℚ
  conductivity : Option ℚ
deriving DecidableEq

/-- Layer.get_conductivity: the layer's own conductivity when present,
otherwise the material's thermal conductivity. -/
def Layer.get_conductivity (l : Layer) : Option ℚ :=
  match l.conductivity with
  | some c => some c
  | none => l.material.thermal_conductivity

/-- Python's round applied to an exact rational: round half to even. -/
def pyRound (q : ℚ) : ℤ :=
  if q - ⌊q⌋ < 1/2 then ⌊q⌋
  else if 1/2 < q - ⌊q⌋ then ⌊q⌋ + 1
  else if ⌊q⌋ % 2 = 0 then ⌊q⌋ else ⌊q⌋ + 1

/-- compute_alpha_from_material (physics/heat_equations.py, lines 7-19):
thermal diffusivity k/(rho*cp), erroring when a property is missing or when
rho or cp is non-positive. -/
def compute_alpha_from_material (m : Material) : Except String ℚ :=
  match m.thermal_conductivity, m.density, m.specific_heat with
  | some k, some rho, some cp =>
    if rho ≤ 0 ∨ cp ≤ 0 then Except.error "rho and cp must be positive."
    else Except.ok (k / (rho * cp))
  | _, _, _ =>
    Except.error ("Material '" ++ m.name ++ "' missing one of k/rho/cp in props.")

/-- Cell count of one layer (heat_equations.py line 41):
n = max(1, int(max(1, round(L / dx_target)))). -/
def nCellsFor (dx_target L : ℚ) : ℕ :=
  (max 1 (max 1 (pyRound (L / dx_target)))).toNat

/-- The layer loop of build_grid_properties (heat_equations.py lines 36-53),
walking the layers with the running left-face position current_x and appending
each layer's cell centers current_x + (i + 0.5)*dx, per-cell conductivity and
per-cell volumetric heat capacity rho*cp. -/
def build_grid_aux (dx_target : ℚ) :
    List Layer → ℚ → Except String (List ℚ × List ℚ × List ℚ)
  | [], _ => Except.ok ([], [], [])
  | layer :: rest, current_x =>
    if layer.thickness ≤ 0 then Except.error "Layer thickness must be positive."
    else
      match layer.get_conductivity, layer.material.density,
            layer.material.specific_heat with
      | some k, some rho, some cp =>
        match build_grid_aux dx_target rest (current_x + layer.thickness) with
        | Except.ok (xs, ks, rcps) =>
          Except.ok
            (((List.range (nCellsFor dx_target layer.thickness)).map fun (i : ℕ) =>
                current_x + ((i : ℚ) + 1/2) *
                  (layer.thickness / (nCellsFor dx_target layer.thickness : ℚ))) ++ xs,
             List.replicate (nCellsFor dx_target layer.thickness) k ++ ks,
             List.replicate (nCellsFor dx_target layer.thickness) (rho * cp) ++ rcps)
        | Except.error e => Except.error e
      | _, _, _ =>
        Except.error ("Layer's material '" ++ layer.material.name ++
          "' missing k, rho, or cp.")

/-- build_grid_properties (heat_equations.py lines 21-56): cell centers,
per-cell conductivities and per-cell volumetric heat capacities. -/
def build_grid_properties (layers : List Layer) (dx_target : ℚ) :
    Except String (List ℚ × List ℚ × List ℚ) :=
  build_grid_aux dx_target layers 0

/-- np.diff: successive differences of a list. -/
def npDiff (l : List ℚ) : List ℚ :=
  List.zipWith (fun a b => b - a) l l.tail

/-- np.max on the (always nonempty at call sites) list of diffusivities. -/
def npMax (l : List ℚ) : ℚ := l.foldl max (l.headD 0)

/-- np.mean: sum divided by length. -/
def npMean (l : List ℚ) : ℚ := l.sum / (l.length : ℚ)

/-- The state of a HeatSolver (physics/solver.py): the grid arrays built at
construction plus the precomputed mean center spacing dx_uniform. -/
structure HeatSolver where
  x : List ℚ
  k : List ℚ
  rho_cp : List ℚ
  dx_uniform : ℚ
deriving DecidableEq

/-- HeatSolver.__init__ (solver.py lines 17-28): build the grid, then set
dx_uniform to the mean of np.diff(x), or 1.0 when there are fewer than two
cells. -/
def HeatSolver.init (layers : List Layer) (dx_target : ℚ) :
    Except String HeatSolver :=
  match build_grid_properties layers dx_target with
  | Except.error e => Except.error e
  | Except.ok (x, k, rcp) =>
    let dxs := npDiff x
    Except.ok ⟨x, k, rcp, if dxs.length = 0 then 1 else npMean dxs⟩

/-- HeatSolver._compute_stable_dt (solver.py lines 30-40):
0.5 * dx_uniform^2 / (2 * alpha_max) with alpha_max = np.max(k / rho_cp). -/
def HeatSolver.compute_stable_dt (s : HeatSolver) : ℚ :=
  (s.dx_uniform ^ 2 / (2 * npMax (List.zipWith (· / ·) s.k s.rho_cp))) * (1/2)

/-- Local variable T_left of the time loop (solver.py lines 97, 102): the
boundary value bc[0] at the first cell, otherwise the previous step's T[i-1]. -/
def tLeft (bc : ℚ × ℚ) (T : List ℚ) (i : ℕ) : ℚ :=
  if i = 0 then bc.1 else T.getD (i - 1) 0

/-- Local variable k_left (solver.py lines 99, 105): the cell's own
conductivity at the first cell, otherwise the harmonic average
2*k[i]*k[i-1]/(k[i]+k[i-1]) guarded against a zero denominator. -/
def kLeft (s : HeatSolver) (i : ℕ) : ℚ :=
  if i = 0 then s.k.getD i 0
  else if s.k.getD i 0 + s.k.getD (i - 1) 0 ≠ 0 then
    2 * s.k.getD i 0 * s.k.getD (i - 1) 0 / (s.k.getD i 0 + s.k.getD (i - 1) 0)
  else 0

/-- Local variable dx_left (solver.py lines 100, 103): at the first cell,
xs[i] - (xs[i] - (xs[i+1]-xs[i])/2) for a multi-cell grid and dx_uniform for a
single cell; otherwise the center spacing xs[i] - xs[i-1]. -/
def dxLeft (s : HeatSolver) (i : ℕ) : ℚ :=
  if i = 0 then
    if 1 < s.x.length then
      s.x.getD i 0 - (s.x.getD i 0 - (s.x.getD (i + 1) 0 - s.x.getD i 0) / 2)
    else s.dx_uniform
  else s.x.getD i 0 - s.x.getD (i - 1) 0

/-- Local variable T_right (solver.py lines 109, 114): the boundary value
bc[1] at the last cell, otherwise the previous step's T[i+1]. -/
def tRight (s : HeatSolver) (bc : ℚ × ℚ) (T : List ℚ) (i : ℕ) : ℚ :=
  if i = s.x.length - 1 then bc.2 else T.getD (i + 1) 0

/-- Local variable k_right (solver.py lines 111, 116). -/
def kRight (s : HeatSolver) (i : ℕ) : ℚ :=
  if i = s.x.length - 1 then s.k.getD i 0
  else if s.k.getD i 0 + s.k.getD (i + 1) 0 ≠ 0 then
    2 * s.k.getD i 0 * s.k.getD (i + 1) 0 / (s.k.getD i 0 + s.k.getD (i + 1) 0)
  else 0

/-- Local variable dx_right (solver.py lines 110, 112, 115): at the last cell,
x_right - xs[i] with x_right = xs[i] + (xs[i]-xs[i-1])/2 for a multi-cell grid
and dx_uniform for a single cell; otherwise xs[i+1] - xs[i]. -/
def dxRight (s : HeatSolver) (i : ℕ) : ℚ :=
  if i = s.x.length - 1 then
    if 1 < s.x.length then
      (s.x.getD i 0 + (s.x.getD i 0 - s.x.getD (i - 1) 0) / 2) - s.x.getD i 0
    else s.dx_uniform
  else s.x.getD (i + 1) 0 - s.x.getD i 0

/-- One cell's update inside the time loop (solver.py lines 94-123): the
discrete fluxes (guarded against zero spacing), the control-volume width
dx_cell = 0.5*(dx_left+dx_right), and the explicit Euler update computed from
the previous step's array T. -/
def cellUpdate (s : HeatSolver) (bc : ℚ × ℚ) (dt : ℚ) (T : List ℚ) (i : ℕ) : ℚ :=
  let flux_right :=
    if dxRight s i ≠ 0 then
      kRight s i * (tRight s bc T i - T.getD i 0) / dxRight s i
    else 0
  let flux_left :=
    if dxLeft s i ≠ 0 then
      kLeft s i * (T.getD i 0 - tLeft bc T i) / dxLeft s i
    else 0
  T.getD i 0 + dt * ((flux_right - flux_left) /
    ((1/2) * (dxLeft s i + dxRight s i)) / s.rho_cp.getD i 0)

/-- One full time step (solver.py lines 92-125): T_new computed cell by cell
from the previous step's array T (Jacobi style), then T replaced wholesale. -/
def stepUpdate (s : HeatSolver) (bc : ℚ × ℚ) (dt : ℚ) (T : List ℚ) : List ℚ :=
  List.ofFn fun i : Fin s.x.length => cellUpdate s bc dt T i.val

/-- The time loop of solve (solver.py lines 91-130), carrying the current
temperature array and emitting a (time, temperatures) record after every step
whose index is a multiple of record_every. -/
def solveLoop (s : HeatSolver) (bc : ℚ × ℚ) (dt : ℚ) (record_every : ℕ) :
    List ℚ → ℕ → ℕ → List (ℚ × List ℚ)
  | _, _, 0 => []
  | T, step, remaining + 1 =>
    (if step % record_every = 0 then [((step : ℚ) * dt, stepUpdate s bc dt T)]
     else []) ++
      solveLoop s bc dt record_every (stepUpdate s bc dt T) (step + 1) remaining

/-- HeatSolver.solve (solver.py lines 42-135): error on an empty grid, default
dt by the stability rule, nsteps = max(1, ceil(t_final/dt)), initial snapshot
at t = 0, then the time loop. Returns the recorded history as (time, T) pairs. -/
def HeatSolver.solve (s : HeatSolver) (t_final : ℚ) (dt? : Option ℚ) (T0 : ℚ)
    (bc : ℚ × ℚ) (record_every : ℕ) : Except String (List (ℚ × List ℚ)) :=
  if s.x.length = 0 then Except.error "No grid cells created."
  else
    let dt := dt?.getD s.compute_stable_dt
    let nsteps := max 1 (⌈t_final / dt⌉).toNat
    Except.ok (((0 : ℚ), List.replicate s.x.length T0) ::
      solveLoop s bc dt record_every (List.replicate s.x.length T0) 1 nsteps)

/-- solve as an explicit state transformer. The source method assigns no
attribute of self anywhere in its body (it only reads the grid arrays and
dx_uniform and writes local variables), so the state-passing embedding returns
the solver record unchanged alongside the computed history. -/
def HeatSolver.solveS (s : HeatSolver) (t_final : ℚ) (dt? : Option ℚ) (T0 : ℚ)
    (bc : ℚ × ℚ) (record_every : ℕ) :
    HeatSolver × Except String (List (ℚ × List ℚ)) :=
  (s, s.solve t_final dt? T0 bc record_every)

/-- Interface conductivity as the specification words it: the harmonic mean
2*k1*k2/(k1+k2), taken as 0 when k1 + k2 = 0. -/
def harmonicMeanK (a b : ℚ) : ℚ :=
  if a + b = 0 then 0 else 2 * a * b / (a + b)

/-- Cell centers as the specification words them: layer j with thickness L
receives n = nCellsFor cells of width L/n centered at
offset + (i + 1/2) * (L/n), offsets accumulating the thicknesses. -/
def claimedCenters (dx_target : ℚ) : List Layer → ℚ → List ℚ
  | [], _ => []
  | l :: rest, offset =>
    ((List.range (nCellsFor dx_target l.thickness)).map fun (i : ℕ) =>
      offset + ((i : ℚ) + 1/2) * (l.thickness / (nCellsFor dx_target l.thickness : ℚ))) ++
    claimedCenters dx_target rest (offset + l.thickness)

/-- Width of the cells of the last layer. -/
def lastCellWidth (dx_target : ℚ) (layers : List Layer) : ℚ :=
  match layers.getLast? with
  | none => 0
  | some l => l.thickness / (nCellsFor dx_target l.thickness : ℚ)

/-- A layer whose conductivity, density and specific heat all resolve. -/
def LayerResolvable (l : Layer) : Prop :=
  l.get_conductivity.isSome ∧ l.material.density.isSome ∧
    l.material.specific_heat.isSome

/-- Total stack thickness. -/
def totalThickness (layers : List Layer) : ℚ :=
  (layers.map Layer.thickness).sum

/-! ### Helper lemmas -/

lemma le_foldl_max (l : List ℚ) (a : ℚ) : a ≤ l.foldl max a := by
  induction l generalizing a with
  | nil => exact le_refl a
  | cons h t ih => exact le_trans (le_max_left a h) (ih (max a h))

lemma mem_le_foldl_max (l : List ℚ) (a x : ℚ) (hx : x ∈ l) : x ≤ l.foldl max a := by
  induction l generalizing a with
  | nil => cases hx
  | cons h t ih =>
    rcases List.mem_cons.mp hx with rfl | hx2
    · exact le_trans (le_max_right a x) (le_foldl_max t (max a x))
    · exact ih (max a h) hx2

lemma foldl_max_mem (l : List ℚ) (a : ℚ) : l.foldl max a = a ∨ l.foldl max a ∈ l := by
  induction l generalizing a with
  | nil => left; rfl
  | cons h t ih =>
    rcases ih (max a h) with heq | hmem
    · rcases max_choice a h with h1 | h1
      · left; rw [List.foldl_cons, heq, h1]
      · right; rw [List.foldl_cons, heq, h1]; exact List.mem_cons_self h t
    · right; exact List.mem_cons_of_mem h hmem

lemma npMax_mem (l : List ℚ) (h : l ≠ []) : npMax l ∈ l := by
  cases l with
  | nil => exact absurd rfl h
  | cons a t =>
    unfold npMax
    rcases foldl_max_mem (a :: t) ((a :: t).headD 0) with heq | hm
    · rw [heq]; exact List.mem_cons_self a t
    · exact hm

lemma npMax_ub (l : List ℚ) (x : ℚ) (hx : x ∈ l) : x ≤ npMax l :=
  mem_le_foldl_max l _ x hx

/-! ### C3 -/

/-- C3: when solve is called with dt absent it uses the stability-rule value
dt = 0.5 * (dx_uniform^2 / (2 * alpha_max)) where alpha_max is the maximum of
the per-cell diffusivities k/rho_cp (it is attained by a cell and bounds every
cell), and this default dt strictly decreases as alpha_max increases with
dx_uniform held fixed. -/
theorem solve_default_dt_stability (s : HeatSolver)
    (hne : List.zipWith (· / ·) s.k s.rho_cp ≠ []) :
    npMax (List.zipWith (· / ·) s.k s.rho_cp) ∈ List.zipWith (· / ·) s.k s.rho_cp ∧
    (∀ a ∈ List.zipWith (· / ·) s.k s.rho_cp,
        a ≤ npMax (List.zipWith (· / ·) s.k s.rho_cp)) ∧
    s.compute_stable_dt =
      (1/2) * (s.dx_uniform ^ 2 / (2 * npMax (List.zipWith (· / ·) s.k s.rho_cp))) ∧
    (∀ t_final T0 bc record_every,
      s.solve t_final none T0 bc record_every =
        s.solve t_final (some s.compute_stable_dt) T0 bc record_every) ∧
    (∀ s₂ : HeatSolver, s₂.dx_uniform = s.dx_uniform → s.dx_uniform ≠ 0 →
      0 < npMax (List.zipWith (· / ·) s.k s.rho_cp) →
      npMax (List.zipWith (· / ·) s.k s.rho_cp) <
        npMax (List.zipWith (· / ·) s₂.k s₂.rho_cp) →
      s₂.compute_stable_dt < s.compute_stable_dt) := by
  refine ⟨npMax_mem _ hne, fun a ha => npMax_ub _ a ha, ?_, fun _ _ _ _ => rfl, ?_⟩
  · unfold HeatSolver.compute_stable_dt
    ring
  · intro s₂ hdx hdxne h1 h2
    unfold HeatSolver.compute_stable_dt
    rw [hdx]
    have hx2 : 0 < s.dx_uniform ^ 2 := by positivity
    have hmain : s.dx_uniform ^ 2 / (2 * npMax (List.zipWith (· / ·) s₂.k s₂.rho_cp)) <
        s.dx_uniform ^ 2 / (2 * npMax (List.zipWith (· / ·) s.k s.rho_cp)) :=
      div_lt_div_of_pos_left hx2 (by linarith) (by linarith)
    linarith

/-- Witness for C3 at a concrete one-cell solver. -/
theorem solve_default_dt_stability_witness :
    (List.zipWith (· / ·) (HeatSolver.mk [0] [2] [1] 1).k
      (HeatSolver.mk [0] [2] [1] 1).rho_cp ≠ []) ∧
    (HeatSolver.mk [0] [2] [1] 1).compute_stable_dt =
      (1/2) * ((HeatSolver.mk [0] [2] [1] 1).dx_uniform ^ 2 /
        (2 * npMax (List.zipWith (· / ·) (HeatSolver.mk [0] [2] [1] 1).k
          (HeatSolver.mk [0] [2] [1] 1).rho_cp))) :=
  ⟨by decide, (solve_default_dt_stability ⟨[0], [2], [1], 1⟩ (by decide)).2.2.1⟩

/-! ### C6 -/

/-- C6 counterexample: constructing a solver from the empty layer list does
not fail; it returns the empty-grid solver (with dx_uniform 1) successfully. -/
theorem empty_layers_init_succeeds :
    HeatSolver.init [] (1/200) = Except.ok ⟨[], [], [], 1⟩ := rfl

/-- C6 amended: for the empty layer list, solver construction succeeds (for
any dx_target), and the zero-cells error is raised only by the subsequent
solve call. -/
theorem empty_layers_error_deferred_to_solve :
    ∀ dx_target t_final dt? T0 bc record_every,
      HeatSolver.init ([] : List Layer) dx_target = Except.ok ⟨[], [], [], 1⟩ ∧
      HeatSolver.solve ⟨[], [], [], 1⟩ t_final dt? T0 bc record_every =
        Except.error "No grid cells created." :=
  fun _ _ _ _ _ _ => ⟨rfl, rfl⟩

/-! ### C8 -/

/-- C8 counterexample: a layer whose material has negative density (all
properties present) passes solver construction successfully; no
InvalidPhysicalValue error is raised at construction time. -/
theorem nonpositive_rho_init_succeeds :
    HeatSolver.init [⟨⟨"bad", some (-1), some 1, some 2⟩, 1, none⟩] 1 =
      Except.ok ⟨[1/2], [2], [-1], 1⟩ := by
  norm_num [HeatSolver.init, build_grid_properties, build_grid_aux,
    Layer.get_conductivity, nCellsFor, pyRound, npDiff, npMean]
  norm_num [List.range_succ]

/-- C8 amended: the positivity check on rho and cp lives only in
compute_alpha_from_material, which errors for any material with non-positive
density or specific heat; grid construction itself performs no such check and
succeeds for a layer of such a material. -/
theorem compute_alpha_rejects_nonpositive (m : Material) (ρ c : ℚ)
    (hρ : m.density = some ρ) (hc : m.specific_heat = some c)
    (hk : m.thermal_conductivity.isSome = true)
    (hbad : ρ ≤ 0 ∨ c ≤ 0) :
    compute_alpha_from_material m = Except.error "rho and cp must be positive." ∧
    ∀ L : ℚ, 0 < L → (build_grid_properties [⟨m, L, none⟩] 1).isOk = true := by
  obtain ⟨kv, hkv⟩ := Option.isSome_iff_exists.mp hk
  constructor
  · unfold compute_alpha_from_material
    rw [hρ, hc, hkv]
    simp [hbad]
  · intro L hL
    unfold build_grid_properties build_grid_aux
    rw [if_neg (not_le.mpr hL)]
    simp [Layer.get_conductivity, hkv, hρ, hc, build_grid_aux, Except.isOk,
      Except.toBool]

/-- Witness for C8 at a concrete material with negative density. -/
theorem compute_alpha_rejects_nonpositive_witness :
    ((⟨"bad", some (-1), some 1, some 2⟩ : Material).density = some (-1)) ∧
    compute_alpha_from_material ⟨"bad", some (-1), some 1, some 2⟩ =
      Except.error "rho and cp must be positive." :=
  ⟨rfl, (compute_alpha_rejects_nonpositive ⟨"bad", some (-1), some 1, some 2⟩
    (-1) 1 rfl rfl rfl (Or.inl (by norm_num))).1⟩

/-! ### C9 -/

/-- C9: solve never modifies the solver's grid state: threading the solver
state through solve returns the cell positions, conductivities, volumetric
heat capacities and dx_uniform unchanged, and a second identical call on the
resulting state returns an identical history. -/
theorem solve_frame_purity (s : HeatSolver) (t_final : ℚ) (dt? : Option ℚ)
    (T0 : ℚ) (bc : ℚ × ℚ) (record_every : ℕ) :
    (s.solveS t_final dt? T0 bc record_every).1.x = s.x ∧
    (s.solveS t_final dt? T0 bc record_every).1.k = s.k ∧
    (s.solveS t_final dt? T0 bc record_every).1.rho_cp = s.rho_cp ∧
    (s.solveS t_final dt? T0 bc record_every).1.dx_uniform = s.dx_uniform ∧
    ((s.solveS t_final dt? T0 bc record_every).1.solveS
        t_final dt? T0 bc record_every).2 =
      (s.solveS t_final dt? T0 bc record_every).2 :=
  ⟨rfl, rfl, rfl, rfl, rfl⟩

/-! ### C4 -/

lemma getD_replicate_lt (n i : ℕ) (c d : ℚ) (h : i < n) :
    (List.replicate n c).getD i d = c := by
  induction n generalizing i with
  | zero => omega
  | succ m ih =>
    cases i with
    | zero => rfl
    | succ j => exact ih j (by omega)

lemma getD_ofFn {n : ℕ} (f : Fin n → ℚ) (i : ℕ) (d : ℚ) (h : i < n) :
    (List.ofFn f).getD i d = f ⟨i, h⟩ := by
  rw [List.getD_eq_getElem (List.ofFn f) d (by simpa using h)]
  exact List.getElem_ofFn f i (by simpa using h)

lemma stepUpdate_length (s : HeatSolver) (bc : ℚ × ℚ) (dt : ℚ) (T : List ℚ) :
    (stepUpdate s bc dt T).length = s.x.length := by
  simp [stepUpdate]

lemma stepUpdate_getD (s : HeatSolver) (bc : ℚ × ℚ) (dt : ℚ) (T : List ℚ)
    (i : ℕ) (d : ℚ) (h : i < s.x.length) :
    (stepUpdate s bc dt T).getD i d = cellUpdate s bc dt T i := by
  unfold stepUpdate
  rw [getD_ofFn _ i d h]

lemma cellUpdate_const (s : HeatSolver) (c dt : ℚ) (i : ℕ) (h : i < s.x.length) :
    cellUpdate s (c, c) dt (List.replicate s.x.length c) i = c := by
  have hTi : (List.replicate s.x.length c).getD i 0 = c :=
    getD_replicate_lt _ _ _ _ h
  have hTl : tLeft (c, c) (List.replicate s.x.length c) i = c := by
    unfold tLeft
    split
    · rfl
    · exact getD_replicate_lt _ _ _ _ (lt_of_le_of_lt (Nat.sub_le i 1) h)
  have hTr : tRight s (c, c) (List.replicate s.x.length c) i = c := by
    unfold tRight
    split
    · rfl
    · next hne => exact getD_replicate_lt _ _ _ _ (by omega)
  unfold cellUpdate
  rw [hTi, hTl, hTr]
  simp

lemma stepUpdate_const (s : HeatSolver) (c dt : ℚ) :
    stepUpdate s (c, c) dt (List.replicate s.x.length c) =
      List.replicate s.x.length c := by
  unfold stepUpdate
  have hfn : (fun i : Fin s.x.length =>
      cellUpdate s (c, c) dt (List.replicate s.x.length c) i.val) =
      fun _ : Fin s.x.length => c :=
    funext fun i => cellUpdate_const s c dt i.val i.isLt
  rw [hfn, List.ofFn_const]

lemma solveLoop_const (s : HeatSolver) (c dt : ℚ) (re : ℕ) :
    ∀ r st p, p ∈ solveLoop s (c, c) dt re (List.replicate s.x.length c) st r →
      p.2 = List.replicate s.x.length c := by
  intro r
  induction r with
  | zero => intro st p hp; cases hp
  | succ m ih =>
    intro st p hp
    unfold solveLoop at hp
    rw [stepUpdate_const] at hp
    rcases List.mem_append.mp hp with h1 | h2
    · by_cases hrec : st % re = 0
      · rw [if_pos hrec] at h1
        rcases List.mem_singleton.mp h1 with rfl
        rfl
      · rw [if_neg hrec] at h1
        cases h1
    · exact ih (st + 1) p h2

/-- C4: with equal boundary temperatures T and uniform initial temperature T,
every snapshot returned by solve holds exactly T in every cell: the uniform
state is a fixed point of the per-step update, for any dt choice, t_final and
record_every. -/
theorem uniform_state_fixed_point (s : HeatSolver) (t_final : ℚ)
    (dt? : Option ℚ) (c : ℚ) (record_every : ℕ) (hn : s.x.length ≠ 0) :
    ∃ hist, s.solve t_final dt? c (c, c) record_every = Except.ok hist ∧
      ∀ p ∈ hist, p.2 = List.replicate s.x.length c := by
  unfold HeatSolver.solve
  rw [if_neg hn]
  refine ⟨_, rfl, ?_⟩
  intro p hp
  rcases List.mem_cons.mp hp with rfl | h2
  · rfl
  · exact solveLoop_const s c _ record_every _ 1 p h2

/-- Witness for C4 at a concrete one-cell solver held at 5 K. -/
theorem uniform_state_fixed_point_witness :
    ((HeatSolver.mk [1/2] [1] [1] 1).x.length ≠ 0) ∧
    ∃ hist, (HeatSolver.mk [1/2] [1] [1] 1).solve 1 (some (1/2)) 5 (5, 5) 1 =
        Except.ok hist ∧
      ∀ p ∈ hist, p.2 = List.replicate (HeatSolver.mk [1/2] [1] [1] 1).x.length 5 :=
  ⟨by decide,
    uniform_state_fixed_point ⟨[1/2], [1], [1], 1⟩ 1 (some (1/2)) 5 1 (by decide)⟩

/-! ### C1 -/

lemma kLeft_interior (s : HeatSolver) (i : ℕ) (hi : i ≠ 0) :
    kLeft s i = harmonicMeanK (s.k.getD i 0) (s.k.getD (i - 1) 0) := by
  unfold kLeft harmonicMeanK
  rw [if_neg hi]
  by_cases h : s.k.getD i 0 + s.k.getD (i - 1) 0 = 0
  · rw [if_neg (not_not_intro h), if_pos h]
  · rw [if_pos h, if_neg h]

lemma kRight_interior (s : HeatSolver) (i : ℕ) (hi : i ≠ s.x.length - 1) :
    kRight s i = harmonicMeanK (s.k.getD i 0) (s.k.getD (i + 1) 0) := by
  unfold kRight harmonicMeanK
  rw [if_neg hi]
  by_cases h : s.k.getD i 0 + s.k.getD (i + 1) 0 = 0
  · rw [if_neg (not_not_intro h), if_pos h]
  · rw [if_pos h, if_neg h]

/-- C1: at every interior cell, the new temperature equals
T[i] + dt * ((k_right*(T[i+1]-T[i])/dx_right - k_left*(T[i]-T[i-1])/dx_left)
/ dx_cell / rho_cp[i]) with dx_cell = 0.5*(dx_left+dx_right), both neighbour
temperatures read from the previous full step's array T, and both interface
conductivities the harmonic mean of the adjacent cells' conductivities
(0 when the two conductivities sum to 0). -/
theorem stepUpdate_interior_formula (s : HeatSolver) (bc : ℚ × ℚ) (dt : ℚ)
    (T : List ℚ) (i : ℕ) (h0 : 0 < i) (hn : i + 1 < s.x.length)
    (hxl : s.x.getD (i - 1) 0 < s.x.getD i 0)
    (hxr : s.x.getD i 0 < s.x.getD (i + 1) 0) :
    (stepUpdate s bc dt T).getD i 0 =
      T.getD i 0 + dt *
        ((harmonicMeanK (s.k.getD i 0) (s.k.getD (i + 1) 0) *
            (T.getD (i + 1) 0 - T.getD i 0) / (s.x.getD (i + 1) 0 - s.x.getD i 0)
          - harmonicMeanK (s.k.getD i 0) (s.k.getD (i - 1) 0) *
            (T.getD i 0 - T.getD (i - 1) 0) / (s.x.getD i 0 - s.x.getD (i - 1) 0))
         / ((1/2) * ((s.x.getD i 0 - s.x.getD (i - 1) 0) +
             (s.x.getD (i + 1) 0 - s.x.getD i 0)))
         / s.rho_cp.getD i 0) := by
  have hi0 : i ≠ 0 := by omega
  have hilast : i ≠ s.x.length - 1 := by omega
  have hdxl : dxLeft s i = s.x.getD i 0 - s.x.getD (i - 1) 0 := by
    unfold dxLeft; rw [if_neg hi0]
  have hdxr : dxRight s i = s.x.getD (i + 1) 0 - s.x.getD i 0 := by
    unfold dxRight; rw [if_neg hilast]
  have htl : tLeft bc T i = T.getD (i - 1) 0 := by
    unfold tLeft; rw [if_neg hi0]
  have htr : tRight s bc T i = T.getD (i + 1) 0 := by
    unfold tRight; rw [if_neg hilast]
  rw [stepUpdate_getD _ _ _ _ i 0 (by omega)]
  unfold cellUpdate
  rw [hdxl, hdxr, htl, htr, kLeft_interior s i hi0, kRight_interior s i hilast,
    if_pos (sub_ne_zero.mpr (ne_of_gt hxr)), if_pos (sub_ne_zero.mpr (ne_of_gt hxl))]

/-- Witness for C1 at the middle cell of a concrete three-cell solver. -/
theorem stepUpdate_interior_formula_witness :
    ((0 : ℕ) < 1 ∧ 1 + 1 < (HeatSolver.mk [1/2, 3/2, 5/2] [1, 1, 1] [1, 1, 1] 1).x.length ∧
      (HeatSolver.mk [1/2, 3/2, 5/2] [1, 1, 1] [1, 1, 1] 1).x.getD 0 0 <
        (HeatSolver.mk [1/2, 3/2, 5/2] [1, 1, 1] [1, 1, 1] 1).x.getD 1 0 ∧
      (HeatSolver.mk [1/2, 3/2, 5/2] [1, 1, 1] [1, 1, 1] 1).x.getD 1 0 <
        (HeatSolver.mk [1/2, 3/2, 5/2] [1, 1, 1] [1, 1, 1] 1).x.getD 2 0) ∧
    (stepUpdate (HeatSolver.mk [1/2, 3/2, 5/2] [1, 1, 1] [1, 1, 1] 1) (9, 9) 2
        [0, 1, 5]).getD 1 0 =
      ([0, 1, 5] : List ℚ).getD 1 0 + 2 *
        ((harmonicMeanK (([1, 1, 1] : List ℚ).getD 1 0) (([1, 1, 1] : List ℚ).getD 2 0) *
            (([0, 1, 5] : List ℚ).getD 2 0 - ([0, 1, 5] : List ℚ).getD 1 0) /
            (([1/2, 3/2, 5/2] : List ℚ).getD 2 0 - ([1/2, 3/2, 5/2] : List ℚ).getD 1 0)
          - harmonicMeanK (([1, 1, 1] : List ℚ).getD 1 0) (([1, 1, 1] : List ℚ).getD 0 0) *
            (([0, 1, 5] : List ℚ).getD 1 0 - ([0, 1, 5] : List ℚ).getD 0 0) /
            (([1/2, 3/2, 5/2] : List ℚ).getD 1 0 - ([1/2, 3/2, 5/2] : List ℚ).getD 0 0))
         / ((1/2) * ((([1/2, 3/2, 5/2] : List ℚ).getD 1 0 - ([1/2, 3/2, 5/2] : List ℚ).getD 0 0) +
             (([1/2, 3/2, 5/2] : List ℚ).getD 2 0 - ([1/2, 3/2, 5/2] : List ℚ).getD 1 0)))
         / (([1, 1, 1] : List ℚ).getD 1 0)) :=
  ⟨⟨by norm_num, by norm_num, by norm_num, by norm_num⟩,
    stepUpdate_interior_formula ⟨[1/2, 3/2, 5/2], [1, 1, 1], [1, 1, 1], 1⟩ (9, 9) 2
      [0, 1, 5] 1 (by norm_num) (by norm_num) (by norm_num) (by norm_num)⟩

/-! ### C7 -/

/-- C7 counterexample: on the two-cell grid built from a single homogeneous
layer of thickness 2 with dx_target 1, the spacing used at the first cell's
boundary half-interface is (x[1]-x[0])/2 = 1/2, not the uniform spacing
estimate dx_uniform = 1, and the first cell's update differs from the value
the claimed dx_uniform-based formula gives. -/
theorem boundary_spacing_counterexample :
    HeatSolver.init [⟨⟨"m", some 1, some 1, some 1⟩, 2, none⟩] 1 =
      Except.ok ⟨[1/2, 3/2], [1, 1], [1, 1], 1⟩ ∧
    (HeatSolver.mk [1/2, 3/2] [1, 1] [1, 1] 1).dx_uniform = 1 ∧
    dxLeft ⟨[1/2, 3/2], [1, 1], [1, 1], 1⟩ 0 = 1/2 ∧
    dxLeft ⟨[1/2, 3/2], [1, 1], [1, 1], 1⟩ 0 ≠
      (HeatSolver.mk [1/2, 3/2] [1, 1] [1, 1] 1).dx_uniform ∧
    (stepUpdate ⟨[1/2, 3/2], [1, 1], [1, 1], 1⟩ (2, 0) 1 [0, 0]).getD 0 0 ≠
      0 + 1 * ((1 * (0 - 0) / 1 - 1 * (0 - 2) / 1) / ((1/2) * (1 + 1)) / 1) := by
  refine ⟨?_, rfl, ?_, ?_, ?_⟩
  · have ht2 : Int.toNat 2 = 2 := rfl
    norm_num [HeatSolver.init, build_grid_properties, build_grid_aux,
      Layer.get_conductivity, nCellsFor, pyRound, npDiff, npMean,
      ht2, List.range_succ, List.replicate_succ]
  · norm_num [dxLeft, List.getD]
  · norm_num [dxLeft, List.getD]
  · rw [stepUpdate_getD _ _ _ _ 0 0 (by norm_num)]
    norm_num [cellUpdate, dxLeft, dxRight, kLeft, kRight, tLeft, tRight, List.getD]

lemma dxLeft_first (s : HeatSolver) (h2 : 2 ≤ s.x.length) :
    dxLeft s 0 = (s.x.getD 1 0 - s.x.getD 0 0) / 2 := by
  unfold dxLeft
  rw [if_pos rfl, if_pos (by omega)]
  ring

lemma dxRight_last (s : HeatSolver) (h2 : 2 ≤ s.x.length) :
    dxRight s (s.x.length - 1) =
      (s.x.getD (s.x.length - 1) 0 - s.x.getD (s.x.length - 2) 0) / 2 := by
  unfold dxRight
  rw [if_pos rfl, if_pos (by omega)]
  have e : s.x.length - 1 - 1 = s.x.length - 2 := by omega
  rw [e]
  ring

/-- C7 amended: for every grid with at least two cells, the first cell reads
T_left = bc[0] with its own conductivity and spacing (x[1]-x[0])/2 (half the
distance to the next cell center, not dx_uniform), and the last cell reads
T_right = bc[1] with its own conductivity and spacing
(x[last]-x[last-1])/2; dx_uniform is used for the boundary spacing only in
the single-cell case. -/
theorem boundary_update_formula (s : HeatSolver) (bc : ℚ × ℚ) (dt : ℚ)
    (T : List ℚ) (h2 : 2 ≤ s.x.length)
    (hx01 : s.x.getD 0 0 < s.x.getD 1 0)
    (hxlast : s.x.getD (s.x.length - 2) 0 < s.x.getD (s.x.length - 1) 0) :
    (stepUpdate s bc dt T).getD 0 0 =
      T.getD 0 0 + dt *
        ((harmonicMeanK (s.k.getD 0 0) (s.k.getD 1 0) * (T.getD 1 0 - T.getD 0 0) /
            (s.x.getD 1 0 - s.x.getD 0 0)
          - s.k.getD 0 0 * (T.getD 0 0 - bc.1) / ((s.x.getD 1 0 - s.x.getD 0 0) / 2))
         / ((1/2) * ((s.x.getD 1 0 - s.x.getD 0 0) / 2 + (s.x.getD 1 0 - s.x.getD 0 0)))
         / s.rho_cp.getD 0 0) ∧
    (stepUpdate s bc dt T).getD (s.x.length - 1) 0 =
      T.getD (s.x.length - 1) 0 + dt *
        ((s.k.getD (s.x.length - 1) 0 * (bc.2 - T.getD (s.x.length - 1) 0) /
            ((s.x.getD (s.x.length - 1) 0 - s.x.getD (s.x.length - 2) 0) / 2)
          - harmonicMeanK (s.k.getD (s.x.length - 1) 0) (s.k.getD (s.x.length - 2) 0) *
            (T.getD (s.x.length - 1) 0 - T.getD (s.x.length - 2) 0) /
            (s.x.getD (s.x.length - 1) 0 - s.x.getD (s.x.length - 2) 0))
         / ((1/2) * ((s.x.getD (s.x.length - 1) 0 - s.x.getD (s.x.length - 2) 0) +
             (s.x.getD (s.x.length - 1) 0 - s.x.getD (s.x.length - 2) 0) / 2))
         / s.rho_cp.getD (s.x.length - 1) 0) := by
  have e1 : s.x.length - 1 - 1 = s.x.length - 2 := by omega
  constructor
  · have h0last : (0 : ℕ) ≠ s.x.length - 1 := by omega
    have hdxl := dxLeft_first s h2
    have hdxr : dxRight s 0 = s.x.getD 1 0 - s.x.getD 0 0 := by
      unfold dxRight; rw [if_neg h0last]
    have htl : tLeft bc T 0 = bc.1 := by unfold tLeft; rw [if_pos rfl]
    have htr : tRight s bc T 0 = T.getD 1 0 := by
      unfold tRight; rw [if_neg h0last]
    have hkl : kLeft s 0 = s.k.getD 0 0 := by unfold kLeft; rw [if_pos rfl]
    rw [stepUpdate_getD _ _ _ _ 0 0 (by omega)]
    unfold cellUpdate
    rw [hdxl, hdxr, htl, htr, hkl, kRight_interior s 0 h0last,
      if_pos (sub_ne_zero.mpr (ne_of_gt hx01)),
      if_pos (div_ne_zero (sub_ne_zero.mpr (ne_of_gt hx01)) two_ne_zero)]
  · have hlast0 : s.x.length - 1 ≠ 0 := by omega
    have hdxr := dxRight_last s h2
    have hdxl : dxLeft s (s.x.length - 1) =
        s.x.getD (s.x.length - 1) 0 - s.x.getD (s.x.length - 2) 0 := by
      unfold dxLeft; rw [if_neg hlast0, e1]
    have htl : tLeft bc T (s.x.length - 1) = T.getD (s.x.length - 2) 0 := by
      unfold tLeft; rw [if_neg hlast0, e1]
    have htr : tRight s bc T (s.x.length - 1) = bc.2 := by
      unfold tRight; rw [if_pos rfl]
    have hkr : kRight s (s.x.length - 1) = s.k.getD (s.x.length - 1) 0 := by
      unfold kRight; rw [if_pos rfl]
    have hkl : kLeft s (s.x.length - 1) =
        harmonicMeanK (s.k.getD (s.x.length - 1) 0) (s.k.getD (s.x.length - 2) 0) := by
      rw [kLeft_interior s (s.x.length - 1) hlast0, e1]
    rw [stepUpdate_getD _ _ _ _ (s.x.length - 1) 0 (by omega)]
    unfold cellUpdate
    rw [hdxl, hdxr, htl, htr, hkl, hkr,
      if_pos (div_ne_zero (sub_ne_zero.mpr (ne_of_gt hxlast)) two_ne_zero),
      if_pos (sub_ne_zero.mpr (ne_of_gt hxlast))]

/-- Witness for C7's amended claim at a concrete two-cell solver. -/
theorem boundary_update_formula_witness :
    (2 ≤ (HeatSolver.mk [1/2, 3/2] [1, 1] [1, 1] 1).x.length ∧
      (HeatSolver.mk [1/2, 3/2] [1, 1] [1, 1] 1).x.getD 0 0 <
        (HeatSolver.mk [1/2, 3/2] [1, 1] [1, 1] 1).x.getD 1 0) ∧
    (stepUpdate (HeatSolver.mk [1/2, 3/2] [1, 1] [1, 1] 1) (2, 0) 1 [0, 0]).getD 0 0 =
      ([0, 0] : List ℚ).getD 0 0 + 1 *
        ((harmonicMeanK (([1, 1] : List ℚ).getD 0 0) (([1, 1] : List ℚ).getD 1 0) *
            (([0, 0] : List ℚ).getD 1 0 - ([0, 0] : List ℚ).getD 0 0) /
            (([1/2, 3/2] : List ℚ).getD 1 0 - ([1/2, 3/2] : List ℚ).getD 0 0)
          - ([1, 1] : List ℚ).getD 0 0 * (([0, 0] : List ℚ).getD 0 0 - 2) /
            ((([1/2, 3/2] : List ℚ).getD 1 0 - ([1/2, 3/2] : List ℚ).getD 0 0) / 2))
         / ((1/2) * ((([1/2, 3/2] : List ℚ).getD 1 0 - ([1/2, 3/2] : List ℚ).getD 0 0) / 2 +
             (([1/2, 3/2] : List ℚ).getD 1 0 - ([1/2, 3/2] : List ℚ).getD 0 0)))
         / (([1, 1] : List ℚ).getD 0 0)) :=
  ⟨⟨by norm_num, by norm_num⟩,
    (boundary_update_formula ⟨[1/2, 3/2], [1, 1], [1, 1], 1⟩ (2, 0) 1 [0, 0]
      (by norm_num) (by norm_num) (by norm_num)).1⟩

/-! ### C10 -/

lemma init_single_cell (l : Layer) (dxt k ρ c : ℚ) (hth : 0 < l.thickness)
    (hk : l.get_conductivity = some k) (hρ : l.material.density = some ρ)
    (hc : l.material.specific_heat = some c)
    (hn : nCellsFor dxt l.thickness = 1) :
    HeatSolver.init [l] dxt = Except.ok ⟨[l.thickness / 2], [k], [ρ * c], 1⟩ := by
  simp only [HeatSolver.init, build_grid_properties, build_grid_aux, hk, hρ, hc,
    hn, if_neg (not_le.mpr hth)]
  norm_num [List.range_succ, npDiff, npMean]
  ring

lemma stepUpdate_single_list (s : HeatSolver) (h : s.x.length = 1)
    (bc : ℚ × ℚ) (dt : ℚ) (T : List ℚ) :
    stepUpdate s bc dt T = [cellUpdate s bc dt T 0] := by
  unfold stepUpdate
  apply List.ext_getElem
  · simp [h]
  · intro i hi₁ hi₂
    have hi0 : i = 0 := by
      simp only [List.length_ofFn, h] at hi₁
      omega
    subst hi0
    simp [List.getElem_ofFn]

lemma cellUpdate_single (s : HeatSolver) (h1 : s.x.length = 1) (bc : ℚ × ℚ)
    (dt : ℚ) (T : List ℚ) :
    cellUpdate s bc dt T 0 =
      T.getD 0 0 + dt *
        (((if s.dx_uniform ≠ 0 then
            s.k.getD 0 0 * (bc.2 - T.getD 0 0) / s.dx_uniform else 0)
          - (if s.dx_uniform ≠ 0 then
            s.k.getD 0 0 * (T.getD 0 0 - bc.1) / s.dx_uniform else 0))
         / ((1/2) * (s.dx_uniform + s.dx_uniform)) / s.rho_cp.getD 0 0) := by
  have hlast : (0 : ℕ) = s.x.length - 1 := by omega
  have hnotlt : ¬(1 < s.x.length) := by omega
  have hdxl : dxLeft s 0 = s.dx_uniform := by
    unfold dxLeft; rw [if_pos rfl, if_neg hnotlt]
  have hdxr : dxRight s 0 = s.dx_uniform := by
    unfold dxRight; rw [if_pos hlast, if_neg hnotlt]
  have htl : tLeft bc T 0 = bc.1 := by unfold tLeft; rw [if_pos rfl]
  have htr : tRight s bc T 0 = bc.2 := by unfold tRight; rw [if_pos hlast]
  have hkl : kLeft s 0 = s.k.getD 0 0 := by unfold kLeft; rw [if_pos rfl]
  have hkr : kRight s 0 = s.k.getD 0 0 := by unfold kRight; rw [if_pos hlast]
  unfold cellUpdate
  rw [hdxl, hdxr, htl, htr, hkl, hkr]

lemma stepUpdate_single_eq (s₁ s₂ : HeatSolver) (h₁ : s₁.x.length = 1)
    (h₂ : s₂.x.length = 1) (hk : s₁.k = s₂.k) (hrcp : s₁.rho_cp = s₂.rho_cp)
    (hdxu : s₁.dx_uniform = s₂.dx_uniform) (bc : ℚ × ℚ) (dt : ℚ) (T : List ℚ) :
    stepUpdate s₁ bc dt T = stepUpdate s₂ bc dt T := by
  rw [stepUpdate_single_list s₁ h₁, stepUpdate_single_list s₂ h₂,
    cellUpdate_single s₁ h₁, cellUpdate_single s₂ h₂, hk, hrcp, hdxu]

lemma solveLoop_congr (s₁ s₂ : HeatSolver) (bc : ℚ × ℚ) (dt : ℚ) (re : ℕ)
    (hstep : ∀ T, stepUpdate s₁ bc dt T = stepUpdate s₂ bc dt T) :
    ∀ r T st, solveLoop s₁ bc dt re T st r = solveLoop s₂ bc dt re T st r := by
  intro r
  induction r with
  | zero => intro T st; rfl
  | succ m ih =>
    intro T st
    unfold solveLoop
    rw [hstep T, ih (stepUpdate s₂ bc dt T) (st + 1)]

/-- C10: a single-layer configuration that yields one grid cell gets
dx_uniform = 1 regardless of the layer's actual thickness, and the resulting
default-dt solution is therefore independent of the cell's true width: two
single-cell solvers over the same material but different thicknesses return
identical histories when solve chooses dt by the stability rule. -/
theorem single_cell_dx_uniform_constant (l₁ l₂ : Layer) (dxt₁ dxt₂ k ρ c : ℚ)
    (h₁ : 0 < l₁.thickness) (h₂ : 0 < l₂.thickness)
    (hk₁ : l₁.get_conductivity = some k) (hρ₁ : l₁.material.density = some ρ)
    (hc₁ : l₁.material.specific_heat = some c)
    (hk₂ : l₂.get_conductivity = some k) (hρ₂ : l₂.material.density = some ρ)
    (hc₂ : l₂.material.specific_heat = some c)
    (hn₁ : nCellsFor dxt₁ l₁.thickness = 1) (hn₂ : nCellsFor dxt₂ l₂.thickness = 1) :
    HeatSolver.init [l₁] dxt₁ =
      Except.ok ⟨[l₁.thickness / 2], [k], [ρ * c], 1⟩ ∧
    HeatSolver.init [l₂] dxt₂ =
      Except.ok ⟨[l₂.thickness / 2], [k], [ρ * c], 1⟩ ∧
    ∀ t_final T0 bc record_every,
      HeatSolver.solve ⟨[l₁.thickness / 2], [k], [ρ * c], 1⟩
          t_final none T0 bc record_every =
        HeatSolver.solve ⟨[l₂.thickness / 2], [k], [ρ * c], 1⟩
          t_final none T0 bc record_every := by
  refine ⟨init_single_cell l₁ dxt₁ k ρ c h₁ hk₁ hρ₁ hc₁ hn₁,
    init_single_cell l₂ dxt₂ k ρ c h₂ hk₂ hρ₂ hc₂ hn₂, ?_⟩
  intro t_final T0 bc record_every
  unfold HeatSolver.solve
  rw [if_neg (by simp), if_neg (by simp)]
  refine congrArg Except.ok (congrArg (List.cons _) ?_)
  exact solveLoop_congr ⟨[l₁.thickness / 2], [k], [ρ * c], 1⟩
    ⟨[l₂.thickness / 2], [k], [ρ * c], 1⟩ bc _ record_every
    (fun T => stepUpdate_single_eq ⟨[l₁.thickness / 2], [k], [ρ * c], 1⟩
      ⟨[l₂.thickness / 2], [k], [ρ * c], 1⟩ rfl rfl rfl rfl rfl bc _ T) _ _ _

/-- Witness for C10: thicknesses 1 and 1/2 both give a single cell with
dx_target 1. -/
theorem single_cell_dx_uniform_constant_witness :
    (nCellsFor 1 (⟨⟨"m", some 2, some 3, some 5⟩, 1, none⟩ : Layer).thickness = 1 ∧
      nCellsFor 1 (⟨⟨"m", some 2, some 3, some 5⟩, 1/2, none⟩ : Layer).thickness = 1) ∧
    HeatSolver.init [⟨⟨"m", some 2, some 3, some 5⟩, 1, none⟩] 1 =
      Except.ok ⟨[(1 : ℚ) / 2], [5], [2 * 3], 1⟩ :=
  ⟨⟨by norm_num [nCellsFor, pyRound], by norm_num [nCellsFor, pyRound]⟩,
    (single_cell_dx_uniform_constant
      ⟨⟨"m", some 2, some 3, some 5⟩, 1, none⟩
      ⟨⟨"m", some 2, some 3, some 5⟩, 1/2, none⟩ 1 1 5 2 3
      (by norm_num) (by norm_num) rfl rfl rfl rfl rfl rfl
      (by norm_num [nCellsFor, pyRound]) (by norm_num [nCellsFor, pyRound])).1⟩

/-! ### C5 -/

lemma solveLoop_map_fst (s : HeatSolver) (bc : ℚ × ℚ) (dt : ℚ) (re : ℕ) :
    ∀ r T st, (solveLoop s bc dt re T st r).map Prod.fst =
      ((List.range' st r).filter (fun m => m % re == 0)).map
        (fun (m : ℕ) => (m : ℚ) * dt) := by
  intro r
  induction r with
  | zero => intro T st; rfl
  | succ m ih =>
    intro T st
    unfold solveLoop
    rw [List.map_append, ih (stepUpdate s bc dt T) (st + 1), List.range'_succ]
    by_cases h : st % re = 0
    · rw [if_pos h, List.filter_cons_of_pos (by simpa using h), List.map_cons]
      rfl
    · rw [if_neg h, List.filter_cons_of_neg (by simpa using h)]
      rfl

lemma filter_mod_length (re : ℕ) :
    ∀ N, ((List.range' 1 N).filter (fun m => m % re == 0)).length = N / re := by
  intro N
  induction N with
  | zero => simp
  | succ M ih =>
    have hconcat : List.range' 1 (M + 1) = List.range' 1 M ++ [1 + M] := by
      rw [List.range'_concat]; simp
    rw [hconcat, List.filter_append, List.length_append, ih, Nat.succ_div,
      Nat.add_comm 1 M]
    by_cases h : re ∣ M + 1
    · rw [if_pos h]
      have hm : ((M + 1) % re == 0) = true := by
        simpa using Nat.dvd_iff_mod_eq_zero.mp h
      simp [hm]
    · rw [if_neg h]
      have hm : ¬(((M + 1) % re == 0) = true) := by
        simpa using fun hc => h (Nat.dvd_iff_mod_eq_zero.mpr hc)
      simp [List.filter, hm]

lemma times_pairwise (re N : ℕ) (dt : ℚ) (hdt : 0 < dt) :
    ((0 : ℚ) :: ((List.range' 1 N).filter (fun m => m % re == 0)).map
      (fun (m : ℕ) => (m : ℚ) * dt)).Pairwise (· < ·) := by
  constructor
  · intro y hy
    rcases List.mem_map.mp hy with ⟨m, hm, rfl⟩
    have hmem : m ∈ List.range' 1 N := List.mem_of_mem_filter hm
    have hm1 : 1 ≤ m := (List.mem_range'_1.mp hmem).1
    have hmq : (0 : ℚ) < (m : ℚ) := by exact_mod_cast hm1
    exact mul_pos hmq hdt
  · rw [List.pairwise_map]
    have hpr : (List.range' 1 N).Pairwise (· < ·) := by
      simpa using List.pairwise_lt_range' 1 N 1
    have hps : ((List.range' 1 N).filter (fun m => m % re == 0)).Pairwise
        (· < ·) := hpr.sublist (List.filter_sublist (List.range' 1 N))
    exact hps.imp fun hab => mul_lt_mul_of_pos_right (by exact_mod_cast hab) hdt

/-- C5: with t_final > 0, dt > 0 and record_every = N >= 1, solve executes
nsteps = ceil(t_final/dt) steps and returns floor(nsteps/N) + 1 snapshots:
the first at time 0 holding T0 in every cell, then one snapshot at time
step*dt for exactly the steps that are multiples of N, so the recorded times
are strictly increasing. -/
theorem solve_history_shape (s : HeatSolver) (t_final dt T0 : ℚ) (bc : ℚ × ℚ)
    (record_every : ℕ) (hn : s.x.length ≠ 0) (ht : 0 < t_final) (hdt : 0 < dt)
    (_hre : 1 ≤ record_every) :
    ∃ hist, s.solve t_final (some dt) T0 bc record_every = Except.ok hist ∧
      hist.length = (⌈t_final / dt⌉).toNat / record_every + 1 ∧
      hist.head? = some (0, List.replicate s.x.length T0) ∧
      hist.map Prod.fst = (0 : ℚ) ::
        ((List.range' 1 (⌈t_final / dt⌉).toNat).filter
          (fun m => m % record_every == 0)).map (fun (m : ℕ) => (m : ℚ) * dt) ∧
      (hist.map Prod.fst).Pairwise (· < ·) := by
  have h1 : 0 < ⌈t_final / dt⌉ := Int.ceil_pos.mpr (div_pos ht hdt)
  have hmax : max 1 (⌈t_final / dt⌉).toNat = (⌈t_final / dt⌉).toNat := by omega
  unfold HeatSolver.solve
  rw [if_neg hn]
  simp only [Option.getD_some]
  rw [hmax]
  refine ⟨_, rfl, ?_, rfl, ?_, ?_⟩
  · simp only [List.length_cons]
    have hlen : (solveLoop s bc dt record_every
        (List.replicate s.x.length T0) 1 (⌈t_final / dt⌉).toNat).length =
        (⌈t_final / dt⌉).toNat / record_every := by
      have h := congrArg List.length (solveLoop_map_fst s bc dt record_every
        (⌈t_final / dt⌉).toNat (List.replicate s.x.length T0) 1)
      simp only [List.length_map] at h
      rw [h, filter_mod_length record_every]
    rw [hlen]
  · rw [List.map_cons, solveLoop_map_fst]
  · rw [List.map_cons, solveLoop_map_fst]
    exact times_pairwise record_every _ dt hdt

/-- Witness for C5: one cell, t_final 1, dt 1/2 (two steps), record_every 1. -/
theorem solve_history_shape_witness :
    ((HeatSolver.mk [1/2] [1] [1] 1).x.length ≠ 0 ∧ (0 : ℚ) < 1 ∧
      (0 : ℚ) < 1/2 ∧ 1 ≤ 1) ∧
    ∃ hist, (HeatSolver.mk [1/2] [1] [1] 1).solve 1 (some (1/2)) 7 (3, 4) 1 =
        Except.ok hist ∧
      hist.length = (⌈(1 : ℚ) / (1/2)⌉).toNat / 1 + 1 ∧
      hist.head? = some (0, List.replicate (HeatSolver.mk [1/2] [1] [1] 1).x.length 7) ∧
      hist.map Prod.fst = (0 : ℚ) ::
        ((List.range' 1 (⌈(1 : ℚ) / (1/2)⌉).toNat).filter
          (fun m => m % 1 == 0)).map (fun (m : ℕ) => (m : ℚ) * (1/2)) ∧
      (hist.map Prod.fst).Pairwise (· < ·) :=
  ⟨⟨by decide, by norm_num, by norm_num, le_refl 1⟩,
    solve_history_shape ⟨[1/2], [1], [1], 1⟩ 1 (1/2) 7 (3, 4) 1
      (by decide) (by norm_num) (by norm_num) (le_refl 1)⟩

/-! ### C2 -/

lemma nCellsFor_pos (dxt L : ℚ) : 1 ≤ nCellsFor dxt L := by
  unfold nCellsFor
  have h : (1 : ℤ) ≤ max 1 (max 1 (pyRound (L / dxt))) := le_max_left _ _
  omega

lemma nCellsFor_cast_pos (dxt L : ℚ) : (0 : ℚ) < (nCellsFor dxt L : ℚ) := by
  have := nCellsFor_pos dxt L
  exact_mod_cast Nat.lt_of_lt_of_le Nat.zero_lt_one this

lemma totalThickness_cons (l : Layer) (rest : List Layer) :
    totalThickness (l :: rest) = l.thickness + totalThickness rest := by
  unfold totalThickness
  rw [List.map_cons, List.sum_cons]

lemma totalThickness_nonneg (layers : List Layer)
    (hth : ∀ l ∈ layers, 0 < l.thickness) : 0 ≤ totalThickness layers := by
  apply List.sum_nonneg
  intro x hx
  rcases List.mem_map.mp hx with ⟨l, hl, rfl⟩
  exact le_of_lt (hth l hl)

lemma build_grid_aux_ok (dxt : ℚ) (layers : List Layer)
    (hth : ∀ l ∈ layers, 0 < l.thickness)
    (hres : ∀ l ∈ layers, LayerResolvable l) :
    ∀ cx, ∃ ks rcps, build_grid_aux dxt layers cx =
      Except.ok (claimedCenters dxt layers cx, ks, rcps) := by
  induction layers with
  | nil => intro cx; exact ⟨[], [], rfl⟩
  | cons l rest ih =>
    intro cx
    obtain ⟨k, hk⟩ := Option.isSome_iff_exists.mp (hres l (List.mem_cons_self l rest)).1
    obtain ⟨ρ, hρ⟩ := Option.isSome_iff_exists.mp (hres l (List.mem_cons_self l rest)).2.1
    obtain ⟨c, hc⟩ := Option.isSome_iff_exists.mp (hres l (List.mem_cons_self l rest)).2.2
    obtain ⟨ks, rcps, hrest⟩ := ih (fun a ha => hth a (List.mem_cons_of_mem l ha))
      (fun a ha => hres a (List.mem_cons_of_mem l ha)) (cx + l.thickness)
    refine ⟨List.replicate (nCellsFor dxt l.thickness) k ++ ks,
      List.replicate (nCellsFor dxt l.thickness) (ρ * c) ++ rcps, ?_⟩
    unfold build_grid_aux
    rw [if_neg (not_le.mpr (hth l (List.mem_cons_self l rest))), hk, hρ, hc, hrest]
    rfl

lemma claimedCenters_length (dxt : ℚ) : ∀ (layers : List Layer) (cx : ℚ),
    (claimedCenters dxt layers cx).length =
      (layers.map (fun l => nCellsFor dxt l.thickness)).sum := by
  intro layers
  induction layers with
  | nil => intro cx; rfl
  | cons l rest ih =>
    intro cx
    unfold claimedCenters
    rw [List.length_append, List.length_map, List.length_range,
      ih (cx + l.thickness), List.map_cons, List.sum_cons]

lemma claimedCenters_ne_nil (dxt : ℚ) (l : Layer) (rest : List Layer) (cx : ℚ) :
    claimedCenters dxt (l :: rest) cx ≠ [] := by
  intro hcon
  have hlen := congrArg List.length hcon
  rw [claimedCenters_length] at hlen
  simp only [List.map_cons, List.sum_cons, List.length_nil] at hlen
  have := nCellsFor_pos dxt l.thickness
  omega

lemma claimedCenters_bounds (dxt : ℚ) : ∀ (layers : List Layer),
    (∀ l ∈ layers, 0 < l.thickness) → ∀ cx,
    (∀ y ∈ claimedCenters dxt layers cx,
      cx < y ∧ y < cx + totalThickness layers) ∧
    (claimedCenters dxt layers cx).Pairwise (· < ·) := by
  intro layers
  induction layers with
  | nil =>
    intro _ cx
    exact ⟨fun y hy => absurd hy (List.not_mem_nil y), List.Pairwise.nil⟩
  | cons l rest ih =>
    intro hth cx
    have hL : 0 < l.thickness := hth l (List.mem_cons_self l rest)
    have hnq : (0 : ℚ) < (nCellsFor dxt l.thickness : ℚ) := nCellsFor_cast_pos dxt l.thickness
    have hdxp : 0 < l.thickness / (nCellsFor dxt l.thickness : ℚ) := div_pos hL hnq
    have hnL : (nCellsFor dxt l.thickness : ℚ) *
        (l.thickness / (nCellsFor dxt l.thickness : ℚ)) = l.thickness := by
      field_simp
    obtain ⟨ihmem, ihpw⟩ := ih (fun a ha => hth a (List.mem_cons_of_mem l ha))
      (cx + l.thickness)
    have hcur : ∀ y ∈ (List.range (nCellsFor dxt l.thickness)).map (fun (i : ℕ) =>
        cx + ((i : ℚ) + 1/2) * (l.thickness / (nCellsFor dxt l.thickness : ℚ))),
        cx < y ∧ y < cx + l.thickness := by
      intro y hy
      rcases List.mem_map.mp hy with ⟨i, hi, rfl⟩
      have hiq : (i : ℚ) + 1 ≤ (nCellsFor dxt l.thickness : ℚ) := by
        exact_mod_cast Nat.succ_le_of_lt (List.mem_range.mp hi)
      constructor
      · have : 0 < ((i : ℚ) + 1/2) * (l.thickness / (nCellsFor dxt l.thickness : ℚ)) := by
          apply mul_pos ?_ hdxp
          positivity
        linarith
      · have hlt : ((i : ℚ) + 1/2) * (l.thickness / (nCellsFor dxt l.thickness : ℚ)) <
            (nCellsFor dxt l.thickness : ℚ) *
              (l.thickness / (nCellsFor dxt l.thickness : ℚ)) := by
          apply mul_lt_mul_of_pos_right ?_ hdxp
          linarith
        rw [hnL] at hlt
        linarith
    have hcurpw : ((List.range (nCellsFor dxt l.thickness)).map (fun (i : ℕ) =>
        cx + ((i : ℚ) + 1/2) * (l.thickness / (nCellsFor dxt l.thickness : ℚ)))).Pairwise
        (· < ·) := by
      rw [List.pairwise_map]
      refine (List.pairwise_lt_range (nCellsFor dxt l.thickness)).imp ?_
      intro a b hab
      have hab2 : (a : ℚ) + 1/2 < (b : ℚ) + 1/2 := by
        have : (a : ℚ) < (b : ℚ) := by exact_mod_cast hab
        linarith
      have := mul_lt_mul_of_pos_right hab2 hdxp
      linarith
    constructor
    · intro y hy
      unfold claimedCenters at hy
      rcases List.mem_append.mp hy with h1 | h2
      · obtain ⟨hgt, hlt⟩ := hcur y h1
        refine ⟨hgt, ?_⟩
        have htt : 0 ≤ totalThickness rest :=
          totalThickness_nonneg rest (fun a ha => hth a (List.mem_cons_of_mem l ha))
        rw [totalThickness_cons]
        linarith
      · obtain ⟨hgt, hlt⟩ := ihmem y h2
        rw [totalThickness_cons]
        constructor
        · linarith
        · linarith
    · unfold claimedCenters
      rw [List.pairwise_append]
      refine ⟨hcurpw, ihpw, ?_⟩
      intro a ha b hb
      have hab := (hcur a ha).2
      have hbb := (ihmem b hb).1
      linarith

lemma map_range_getLast (n : ℕ) (hn : n ≠ 0) (f : ℕ → ℚ) :
    ((List.range n).map f).getLast? = some (f (n - 1)) := by
  cases n with
  | zero => exact absurd rfl hn
  | succ m =>
    rw [List.range_succ, List.map_append]
    simp

lemma claimedCenters_getLast (dxt : ℚ) : ∀ (layers : List Layer) (cx : ℚ),
    layers ≠ [] →
    (claimedCenters dxt layers cx).getLast? =
      some (cx + totalThickness layers - lastCellWidth dxt layers / 2) := by
  intro layers
  induction layers with
  | nil => intro cx h; exact absurd rfl h
  | cons l rest ih =>
    intro cx _
    cases rest with
    | nil =>
      have hstep : claimedCenters dxt [l] cx =
          (List.range (nCellsFor dxt l.thickness)).map (fun (i : ℕ) =>
            cx + ((i : ℚ) + 1/2) *
              (l.thickness / (nCellsFor dxt l.thickness : ℚ))) := by
        unfold claimedCenters
        rw [show claimedCenters dxt [] (cx + l.thickness) = [] from rfl,
          List.append_nil]
      have hn1 := nCellsFor_pos dxt l.thickness
      rw [hstep, map_range_getLast _ (by omega) _]
      have hc : ((nCellsFor dxt l.thickness - 1 : ℕ) : ℚ) =
          (nCellsFor dxt l.thickness : ℚ) - 1 := by
        rw [Nat.cast_sub hn1]
        norm_num
      rw [hc]
      have hnz : (nCellsFor dxt l.thickness : ℚ) ≠ 0 :=
        ne_of_gt (nCellsFor_cast_pos dxt l.thickness)
      congr 1
      unfold totalThickness lastCellWidth
      simp only [List.map_cons, List.map_nil, List.sum_cons, List.sum_nil,
        List.getLast?_singleton]
      field_simp
      ring
    | cons l₂ rest₂ =>
      have hstep : claimedCenters dxt (l :: l₂ :: rest₂) cx =
          ((List.range (nCellsFor dxt l.thickness)).map (fun (i : ℕ) =>
            cx + ((i : ℚ) + 1/2) *
              (l.thickness / (nCellsFor dxt l.thickness : ℚ)))) ++
            claimedCenters dxt (l₂ :: rest₂) (cx + l.thickness) := rfl
      rw [hstep,
        List.getLast?_append_of_ne_nil _ (claimedCenters_ne_nil dxt l₂ rest₂ _),
        ih (cx + l.thickness) (by simp)]
      have hlw : lastCellWidth dxt (l :: l₂ :: rest₂) =
          lastCellWidth dxt (l₂ :: rest₂) := by
        unfold lastCellWidth
        rw [List.getLast?_cons_cons]
      rw [hlw, totalThickness_cons l (l₂ :: rest₂)]
      congr 1
      ring

/-- C2: for layers with positive thickness and resolvable properties (and a
positive dx_target), the grid builder returns exactly the centers
offset_j + (i + 1/2) * (L_j / n_j) with n_j = max(1, round(L_j / dx_target))
cells per layer; the total cell count is the sum of the per-layer counts, the
per-layer cells exactly tile the stack (sum of count * width = sum of
thicknesses), the centers are strictly increasing, and the last cell's right
edge (last center + half its width) is at the total stack thickness. -/
theorem build_grid_characterization (layers : List Layer) (dx_target : ℚ)
    (_hdx : 0 < dx_target)
    (hth : ∀ l ∈ layers, 0 < l.thickness)
    (hres : ∀ l ∈ layers, LayerResolvable l) :
    ∃ ks rcps,
      build_grid_properties layers dx_target =
        Except.ok (claimedCenters dx_target layers 0, ks, rcps) ∧
      (claimedCenters dx_target layers 0).length =
        (layers.map (fun l => nCellsFor dx_target l.thickness)).sum ∧
      (layers.map (fun l => (nCellsFor dx_target l.thickness : ℚ) *
        (l.thickness / (nCellsFor dx_target l.thickness : ℚ)))).sum =
        totalThickness layers ∧
      (claimedCenters dx_target layers 0).Pairwise (· < ·) ∧
      (layers ≠ [] →
        (claimedCenters dx_target layers 0).getLast? =
          some (totalThickness layers - lastCellWidth dx_target layers / 2)) := by
  obtain ⟨ks, rcps, hok⟩ := build_grid_aux_ok dx_target layers hth hres 0
  refine ⟨ks, rcps, hok, claimedCenters_length dx_target layers 0, ?_, ?_, ?_⟩
  · have hcong : layers.map (fun l => (nCellsFor dx_target l.thickness : ℚ) *
        (l.thickness / (nCellsFor dx_target l.thickness : ℚ))) =
        layers.map Layer.thickness := by
      apply List.map_congr_left
      intro l _
      have hnz : (nCellsFor dx_target l.thickness : ℚ) ≠ 0 :=
        ne_of_gt (nCellsFor_cast_pos dx_target l.thickness)
      field_simp
    rw [hcong]
    rfl
  · exact (claimedCenters_bounds dx_target layers hth 0).2
  · intro hne
    rw [claimedCenters_getLast dx_target layers 0 hne, zero_add]

/-- Witness for C2 at a concrete two-layer stack. -/
theorem build_grid_characterization_witness :
    ((0 : ℚ) < 1 ∧
      (∀ l ∈ [(⟨⟨"a", some 1, some 1, some 1⟩, 2, none⟩ : Layer),
        ⟨⟨"b", some 2, some 2, some 2⟩, 1, none⟩], 0 < l.thickness) ∧
      (∀ l ∈ [(⟨⟨"a", some 1, some 1, some 1⟩, 2, none⟩ : Layer),
        ⟨⟨"b", some 2, some 2, some 2⟩, 1, none⟩], LayerResolvable l)) ∧
    ∃ ks rcps,
      build_grid_properties [(⟨⟨"a", some 1, some 1, some 1⟩, 2, none⟩ : Layer),
          ⟨⟨"b", some 2, some 2, some 2⟩, 1, none⟩] 1 =
        Except.ok (claimedCenters 1 [(⟨⟨"a", some 1, some 1, some 1⟩, 2, none⟩ : Layer),
          ⟨⟨"b", some 2, some 2, some 2⟩, 1, none⟩] 0, ks, rcps) ∧
      (claimedCenters 1 [(⟨⟨"a", some 1, some 1, some 1⟩, 2, none⟩ : Layer),
          ⟨⟨"b", some 2, some 2, some 2⟩, 1, none⟩] 0).length =
        ([(⟨⟨"a", some 1, some 1, some 1⟩, 2, none⟩ : Layer),
          ⟨⟨"b", some 2, some 2, some 2⟩, 1, none⟩].map
            (fun l => nCellsFor 1 l.thickness)).sum ∧
      ([(⟨⟨"a", some 1, some 1, some 1⟩, 2, none⟩ : Layer),
          ⟨⟨"b", some 2, some 2, some 2⟩, 1, none⟩].map
            (fun l => (nCellsFor 1 l.thickness : ℚ) *
              (l.thickness / (nCellsFor 1 l.thickness : ℚ)))).sum =
        totalThickness [(⟨⟨"a", some 1, some 1, some 1⟩, 2, none⟩ : Layer),
          ⟨⟨"b", some 2, some 2, some 2⟩, 1, none⟩] ∧
      (claimedCenters 1 [(⟨⟨"a", some 1, some 1, some 1⟩, 2, none⟩ : Layer),
          ⟨⟨"b", some 2, some 2, some 2⟩, 1, none⟩] 0).Pairwise (· < ·) ∧
      ([(⟨⟨"a", some 1, some 1, some 1⟩, 2, none⟩ : Layer),
          ⟨⟨"b", some 2, some 2, some 2⟩, 1, none⟩] ≠ ([] : List Layer) →
        (claimedCenters 1 [(⟨⟨"a", some 1, some 1, some 1⟩, 2, none⟩ : Layer),
          ⟨⟨"b", some 2, some 2, some 2⟩, 1, none⟩] 0).getLast? =
          some (totalThickness [(⟨⟨"a", some 1, some 1, some 1⟩, 2, none⟩ : Layer),
            ⟨⟨"b", some 2, some 2, some 2⟩, 1, none⟩] -
            lastCellWidth 1 [(⟨⟨"a", some 1, some 1, some 1⟩, 2, none⟩ : Layer),
              ⟨⟨"b", some 2, some 2, some 2⟩, 1, none⟩] / 2)) := by
  have hth : ∀ l ∈ [(⟨⟨"a", some 1, some 1, some 1⟩, 2, none⟩ : Layer),
      ⟨⟨"b", some 2, some 2, some 2⟩, 1, none⟩], 0 < l.thickness := by
    intro l hl
    fin_cases hl <;> norm_num
  have hres : ∀ l ∈ [(⟨⟨"a", some 1, some 1, some 1⟩, 2, none⟩ : Layer),
      ⟨⟨"b", some 2, some 2, some 2⟩, 1, none⟩], LayerResolvable l := by
    intro l hl
    fin_cases hl <;> exact ⟨rfl, rfl, rfl⟩
  exact ⟨⟨by norm_num, hth, hres⟩,
    build_grid_characterization _ 1 (by norm_num) hth hres⟩
